import Mathlib

/-!
Verification of the streaming segmentation and commit state machine of
`src/temp.py` (function `main`, lines 44–89, plus the configuration
constants, lines 10–15).

Modelling choices (shallow embedding):
* Audio samples (`float32`) and wall-clock times (`time.time()`) are
  modelled as rationals; the claims only move samples around and compare
  times, they never do float arithmetic.
* One iteration of the `while True` loop (lines 58–89) is one `step` on a
  `LoopState`, driven by an `Event`: either the queue poll timed out
  (`queue.Empty`, line 61) or a frame was popped (line 60).  The external
  adapters (`asr_model.transcribe` at line 77, with the glue
  `" ".join(seg.text ...).strip()` of line 78 that forms the
  RecognitionResult string, and `translate_text` at line 85) are
  environment oracles whose responses ride on the frame event;
  `Except.error` models a raised exception.
* An uncaught exception propagates out of the loop body; the loop has no
  handler, so the run aborts.  `step` and `run` return `Except.error s`
  carrying the loop state at the moment of propagation.
-/

/-- Configuration constant `SAMPLE_RATE = 16000` (line 10). -/
def SAMPLE_RATE : ℕ := 16000

/-- Configuration constant `CHUNK_DURATION = 1.0` seconds (line 12). -/
def CHUNK_DURATION : ℚ := 1

/-- Configuration constant `PAUSE_THRESHOLD = 0.8` seconds (line 15). -/
def PAUSE_THRESHOLD : ℚ := 4/5

/-- `int(SAMPLE_RATE * CHUNK_DURATION)`, the number of samples per
processing window (lines 72–74): `16000 * 1.0 = 16000`. -/
def windowSizeInSamples : ℕ := 16000

/-- The mutable state of the processing loop (lines 48–51):
`buffer_audio`, `provisional_text`, `committed_text`, `last_speech_time`. -/
structure LoopState where
  buffer : List ℚ
  provisional : String
  committed : String
  lastSpeech : ℚ
  deriving DecidableEq, Repr

/-- Initial loop state (lines 48–51); the `time.time()` value taken at
stream start is abstracted as time `0`. -/
def initState : LoopState := ⟨[], "", "", 0⟩

deriving instance DecidableEq for Except

/-- One iteration of the loop, as seen from the environment.
`timeout now` is the `queue.Empty` branch (line 61), with `now` the value
of `time.time()` at line 63.  `frame chunk asr now tr` is a popped frame:
`chunk` the flattened samples (line 60); `asr` the RecognitionResult
string the recognition adapter produces for the extracted window, i.e.
the value `asr_text` of line 78 (consulted only if a window is
extracted), with `Except.error` a raised exception; `now` the value of
`time.time()` at line 82; `tr` the translation adapter response for
`asr` (consulted only if translation is reached, line 85). -/
inductive Event where
  | timeout (now : ℚ)
  | frame (chunk : List ℚ) (asr : Except Unit String) (now : ℚ) (tr : Except Unit String)
  deriving DecidableEq, Repr

/-- The body of the `while True` loop (lines 59–89).  On `timeout`:
commit check of lines 63–66.  On `frame`: append the chunk (line 69); if
at least one window of samples is buffered, slice it off (lines 72–74),
run recognition (line 77); empty recognition text skips the rest
(lines 79–80); otherwise set `last_speech_time` (line 82), translate
(line 85) and replace the provisional text wholesale (line 86).
`Except.error` carries the state at the moment an adapter exception
propagates (no handler exists in the source). -/
def step (s : LoopState) : Event → Except LoopState LoopState
  | .timeout now =>
      if s.provisional ≠ "" ∧ now - s.lastSpeech > PAUSE_THRESHOLD then
        .ok { s with committed := s.committed ++ " " ++ s.provisional,
                     provisional := "" }
      else
        .ok s
  | .frame chunk asr now tr =>
      let buf := s.buffer ++ chunk
      if windowSizeInSamples ≤ buf.length then
        -- the window handed to the adapter is buf.take windowSizeInSamples
        let rest := buf.drop windowSizeInSamples
        match asr with
        | .error _ => .error { s with buffer := rest }
        | .ok asrText =>
            if asrText = "" then
              .ok { s with buffer := rest }
            else
              match tr with
              | .error _ => .error { s with buffer := rest, lastSpeech := now }
              | .ok translated =>
                  .ok { s with buffer := rest, lastSpeech := now,
                               provisional := translated }
      else
        .ok { s with buffer := buf }

/-- Run the loop over a finite trace of iterations; an uncaught adapter
exception aborts the loop, leaving the remaining events unprocessed. -/
def run (s : LoopState) : List Event → Except LoopState LoopState
  | [] => .ok s
  | e :: es =>
      match step s e with
      | .ok s' => run s' es
      | .error s' => .error s'

/-- The loop state an iteration ends in, whether or not an exception
propagated. -/
def resultState : Except LoopState LoopState → LoopState
  | .ok s => s
  | .error s => s

/-- True when the iteration completed without an uncaught exception. -/
def isOk : Except LoopState LoopState → Bool
  | .ok _ => true
  | .error _ => false

/-- A commit happened between two observations of the loop state: the
committed transcript changed (it only ever changes at lines 64–66). -/
def commitOccurred (s t : LoopState) : Prop :=
  t.committed ≠ s.committed

/-- The window-slicing operation of lines 72–74 on a sample buffer:
returns one window of `W` samples from the front plus the remainder when
enough samples are buffered, and nothing otherwise. -/
def tryExtractWindow (W : ℕ) (buf : List ℚ) : Option (List ℚ × List ℚ) :=
  if W ≤ buf.length then some (buf.take W, buf.drop W) else none

/-- Worker for `extractAll`, structurally recursive on a fuel bound so
that it evaluates inside the kernel; each slice removes `W ≥ 1` samples,
so `buf.length` is always enough fuel. -/
def extractAllGo : ℕ → ℕ → List ℚ → List (List ℚ) × List ℚ
  | 0, _, buf => ([], buf)
  | fuel + 1, W, buf =>
      if 0 < W ∧ W ≤ buf.length then
        let p := extractAllGo fuel W (buf.drop W)
        (buf.take W :: p.1, p.2)
      else
        ([], buf)

/-- Repeated application of `tryExtractWindow` until it reports not
enough data: all windows in extraction order, plus the final remainder.
The `0 < W` guard only rules out the degenerate window size on which
repetition would not terminate. -/
def extractAll (W : ℕ) (buf : List ℚ) : List (List ℚ) × List ℚ :=
  extractAllGo buf.length W buf

/-- Concatenating the extracted windows and the remainder restores the
buffer, for any fuel. -/
lemma extractAllGo_flatten_append (fuel W : ℕ) (buf : List ℚ) :
    (extractAllGo fuel W buf).1.flatten ++ (extractAllGo fuel W buf).2 = buf := by
  induction fuel generalizing buf with
  | zero => simp [extractAllGo]
  | succ n ih =>
      by_cases hc : 0 < W ∧ W ≤ buf.length
      · simp only [extractAllGo, if_pos hc, List.flatten_cons, List.append_assoc,
          ih (buf.drop W)]
        exact List.take_append_drop W buf
      · simp [extractAllGo, if_neg hc]

/-- With enough fuel and a positive window size, repeated extraction
produces `length / W` windows of `W` samples each and a remainder of
`length % W` samples. -/
lemma extractAllGo_counts (W : ℕ) (hW : 0 < W) (fuel : ℕ) :
    ∀ buf : List ℚ, buf.length ≤ fuel →
      (extractAllGo fuel W buf).1.length = buf.length / W ∧
      (∀ w ∈ (extractAllGo fuel W buf).1, w.length = W) ∧
      (extractAllGo fuel W buf).2.length = buf.length % W := by
  induction fuel with
  | zero =>
      intro buf hb
      have h0 : buf.length = 0 := Nat.le_zero.mp hb
      simp [extractAllGo, h0, Nat.zero_div, Nat.zero_mod]
  | succ n ih =>
      intro buf hb
      by_cases hc : W ≤ buf.length
      · have hfuel : (buf.drop W).length ≤ n := by
          rw [List.length_drop]; omega
        obtain ⟨h1, h2, h3⟩ := ih (buf.drop W) hfuel
        refine ⟨?_, ?_, ?_⟩
        · simp only [extractAllGo, if_pos (And.intro hW hc), List.length_cons, h1,
            List.length_drop]
          rw [Nat.div_eq_sub_div hW hc]
        · intro w hw
          simp only [extractAllGo, if_pos (And.intro hW hc), List.mem_cons] at hw
          rcases hw with hw | hw
          · rw [hw, List.length_take]
            exact Nat.min_eq_left hc
          · exact h2 w hw
        · simp only [extractAllGo, if_pos (And.intro hW hc), h3, List.length_drop]
          rw [Nat.mod_eq_sub_mod hc]
      · have hlt : buf.length < W := Nat.lt_of_not_le hc
        have hguard : ¬ (0 < W ∧ W ≤ buf.length) := by omega
        simp [extractAllGo, if_neg hguard, Nat.div_eq_of_lt hlt, Nat.mod_eq_of_lt hlt]

/-- Tick branch, commit case (lines 63–66): provisional text is pending
and the pause threshold is exceeded. -/
lemma step_timeout_commit (s : LoopState) (now : ℚ)
    (h1 : s.provisional ≠ "") (h2 : now - s.lastSpeech > PAUSE_THRESHOLD) :
    step s (.timeout now) =
      .ok { s with committed := s.committed ++ " " ++ s.provisional,
                   provisional := "" } := by
  simp only [step]
  rw [if_pos ⟨h1, h2⟩]

/-- Tick branch, no-commit case (line 63 guard false): the state is
returned unchanged. -/
lemma step_timeout_noCommit (s : LoopState) (now : ℚ)
    (h : ¬ (s.provisional ≠ "" ∧ now - s.lastSpeech > PAUSE_THRESHOLD)) :
    step s (.timeout now) = .ok s := by
  simp only [step]
  rw [if_neg h]

/-- Frame branch, not enough samples for a window (line 72 guard false):
only the buffer grows. -/
lemma step_frame_small (s : LoopState) (chunk : List ℚ)
    (asr : Except Unit String) (now : ℚ) (tr : Except Unit String)
    (h : ¬ windowSizeInSamples ≤ (s.buffer ++ chunk).length) :
    step s (.frame chunk asr now tr) = .ok { s with buffer := s.buffer ++ chunk } := by
  simp only [step]
  rw [if_neg h]

/-- Frame branch, recognition raises (line 77): the exception propagates
with the window already sliced off the buffer. -/
lemma step_frame_asrError (s : LoopState) (chunk : List ℚ) (u : Unit)
    (now : ℚ) (tr : Except Unit String)
    (h : windowSizeInSamples ≤ (s.buffer ++ chunk).length) :
    step s (.frame chunk (.error u) now tr) =
      .error { s with buffer := (s.buffer ++ chunk).drop windowSizeInSamples } := by
  simp only [step]
  rw [if_pos h]

/-- Frame branch, empty recognition text (lines 79–80): only the buffer
changes; translation is not reached, so the result does not depend on
the translation response `tr`. -/
lemma step_frame_asrEmpty (s : LoopState) (chunk : List ℚ)
    (now : ℚ) (tr : Except Unit String)
    (h : windowSizeInSamples ≤ (s.buffer ++ chunk).length) :
    step s (.frame chunk (.ok "") now tr) =
      .ok { s with buffer := (s.buffer ++ chunk).drop windowSizeInSamples } := by
  simp only [step]
  rw [if_pos h]
  simp

/-- Frame branch, translation raises (line 85): the exception propagates
after `last_speech_time` was already set at line 82; committed and
provisional text are untouched. -/
lemma step_frame_trError (s : LoopState) (chunk : List ℚ) (raw : String)
    (now : ℚ) (u : Unit)
    (h : windowSizeInSamples ≤ (s.buffer ++ chunk).length)
    (hraw : raw ≠ "") :
    step s (.frame chunk (.ok raw) now (.error u)) =
      .error { s with buffer := (s.buffer ++ chunk).drop windowSizeInSamples,
                      lastSpeech := now } := by
  simp only [step]
  rw [if_pos h]
  simp [hraw]

/-- Frame branch, full window-ready path (lines 82–86): slice the
window, set `last_speech_time`, replace the provisional text wholesale
with the new translation. -/
lemma step_frame_success (s : LoopState) (chunk : List ℚ) (raw : String)
    (now : ℚ) (translated : String)
    (h : windowSizeInSamples ≤ (s.buffer ++ chunk).length)
    (hraw : raw ≠ "") :
    step s (.frame chunk (.ok raw) now (.ok translated)) =
      .ok { s with buffer := (s.buffer ++ chunk).drop windowSizeInSamples,
                   lastSpeech := now, provisional := translated } := by
  simp only [step]
  rw [if_pos h]
  simp [hraw]

/-- Every iteration, exception or not, ends with the prior committed
transcript as a prefix. -/
lemma step_committed_extends (s : LoopState) (e : Event) :
    ∃ t, (resultState (step s e)).committed = s.committed ++ t := by
  cases e with
  | timeout now =>
      by_cases hc : s.provisional ≠ "" ∧ now - s.lastSpeech > PAUSE_THRESHOLD
      · rw [step_timeout_commit s now hc.1 hc.2]
        exact ⟨" " ++ s.provisional, by simp [resultState, String.append_assoc]⟩
      · rw [step_timeout_noCommit s now hc]
        exact ⟨"", by simp [resultState]⟩
  | frame chunk asr now tr =>
      refine ⟨"", ?_⟩
      by_cases hlen : windowSizeInSamples ≤ (s.buffer ++ chunk).length
      · cases asr with
        | error u => rw [step_frame_asrError s chunk u now tr hlen]; simp [resultState]
        | ok raw =>
            by_cases hraw : raw = ""
            · subst hraw
              rw [step_frame_asrEmpty s chunk now tr hlen]; simp [resultState]
            · cases tr with
              | error u =>
                  rw [step_frame_trError s chunk raw now u hlen hraw]
                  simp [resultState]
              | ok translated =>
                  rw [step_frame_success s chunk raw now translated hlen hraw]
                  simp [resultState]
      · rw [step_frame_small s chunk asr now tr hlen]; simp [resultState]

/-- Whole runs only ever append to the committed transcript. -/
lemma run_committed_extends (es : List Event) :
    ∀ s : LoopState, ∃ t, (resultState (run s es)).committed = s.committed ++ t := by
  induction es with
  | nil => intro s; exact ⟨"", by simp [run, resultState]⟩
  | cons e es ih =>
      intro s
      obtain ⟨t₁, h₁⟩ := step_committed_extends s e
      cases hst : step s e with
      | ok s' =>
          rw [hst] at h₁
          obtain ⟨t₂, h₂⟩ := ih s'
          refine ⟨t₁ ++ t₂, ?_⟩
          have hrun : run s (e :: es) = run s' es := by simp [run, hst]
          rw [hrun, h₂]
          simp only [resultState] at h₁
          rw [h₁, String.append_assoc]
      | error s' =>
          rw [hst] at h₁
          refine ⟨t₁, ?_⟩
          have hrun : run s (e :: es) = .error s' := by simp [run, hst]
          rw [hrun]
          simpa [resultState] using h₁

/-- Running a concatenation of traces runs the first trace, then the
second from where the first ended, unless the first aborted. -/
lemma run_append (es₁ es₂ : List Event) :
    ∀ s : LoopState, run s (es₁ ++ es₂) =
      match run s es₁ with
      | .ok s' => run s' es₂
      | .error s' => .error s' := by
  induction es₁ with
  | nil => intro s; simp [run]
  | cons e es ih =>
      intro s
      cases hst : step s e with
      | ok s' => simp [run, hst, ih]
      | error s' => simp [run, hst]

/-- A popped frame whose recognition comes back as the empty
RecognitionResult string (silence). -/
def emptyRecognitionFrame : Event → Prop
  | .frame _ asr _ _ => asr = Except.ok ""
  | .timeout _ => False

instance : DecidablePred emptyRecognitionFrame := by
  intro e
  cases e with
  | timeout now => exact .isFalse (by simp [emptyRecognitionFrame])
  | frame chunk asr now tr =>
      simp only [emptyRecognitionFrame]
      infer_instance

/-- A silence frame only ever changes the audio buffer: provisional
text, committed text and `last_speech_time` all survive it. -/
lemma step_emptyRec (s : LoopState) (e : Event) (h : emptyRecognitionFrame e) :
    ∃ b, step s e = .ok { s with buffer := b } := by
  cases e with
  | timeout now => exact absurd h (by simp [emptyRecognitionFrame])
  | frame chunk asr now tr =>
      have ha : asr = Except.ok "" := h
      subst ha
      by_cases hlen : windowSizeInSamples ≤ (s.buffer ++ chunk).length
      · exact ⟨_, step_frame_asrEmpty s chunk now tr hlen⟩
      · exact ⟨_, step_frame_small s chunk _ now tr hlen⟩

/-- A whole trace of silence frames completes without exception and
changes nothing but the audio buffer. -/
lemma run_emptyRec (es : List Event) (h : ∀ e ∈ es, emptyRecognitionFrame e) :
    ∀ s : LoopState, ∃ b, run s es = .ok { s with buffer := b } := by
  induction es with
  | nil => intro s; exact ⟨s.buffer, by simp [run]⟩
  | cons e es ih =>
      intro s
      obtain ⟨b₁, hb₁⟩ := step_emptyRec s e (h e (by simp))
      obtain ⟨b₂, hb₂⟩ := ih (fun e' he' => h e' (by simp [he'])) { s with buffer := b₁ }
      exact ⟨b₂, by simp [run, hb₁, hb₂]⟩

/-- A frame that carries at most one window of samples (the bound under
which the slice invariant of the spec actually holds). -/
def frameFits : Event → Prop
  | .frame chunk _ _ _ => chunk.length ≤ windowSizeInSamples
  | .timeout _ => True

instance : DecidablePred frameFits := by
  intro e
  cases e with
  | timeout now => exact .isTrue trivial
  | frame chunk asr now tr =>
      simp only [frameFits]
      infer_instance

/-- One iteration keeps the buffer below one window, provided it was
below one window before and the arriving frame fits in one window. -/
lemma step_buffer_bound (s : LoopState) (e : Event)
    (hs : s.buffer.length < windowSizeInSamples) (he : frameFits e) :
    (resultState (step s e)).buffer.length < windowSizeInSamples := by
  cases e with
  | timeout now =>
      by_cases hc : s.provisional ≠ "" ∧ now - s.lastSpeech > PAUSE_THRESHOLD
      · rw [step_timeout_commit s now hc.1 hc.2]; simpa [resultState] using hs
      · rw [step_timeout_noCommit s now hc]; simpa [resultState] using hs
  | frame chunk asr now tr =>
      have hchunk : chunk.length ≤ windowSizeInSamples := he
      by_cases hlen : windowSizeInSamples ≤ (s.buffer ++ chunk).length
      · have hdrop : ((s.buffer ++ chunk).drop windowSizeInSamples).length
            < windowSizeInSamples := by
          rw [List.length_drop, List.length_append]
          omega
        cases asr with
        | error u => rw [step_frame_asrError s chunk u now tr hlen]; simpa [resultState] using hdrop
        | ok raw =>
            by_cases hraw : raw = ""
            · subst hraw
              rw [step_frame_asrEmpty s chunk now tr hlen]
              simpa [resultState] using hdrop
            · cases tr with
              | error u =>
                  rw [step_frame_trError s chunk raw now u hlen hraw]
                  simpa [resultState] using hdrop
              | ok translated =>
                  rw [step_frame_success s chunk raw now translated hlen hraw]
                  simpa [resultState] using hdrop
      · rw [step_frame_small s chunk asr now tr hlen]
        simp only [resultState]
        rw [List.length_append] at hlen ⊢
        omega

/-- The below-one-window buffer invariant holds along any run of
fitting frames, exception or not. -/
lemma run_buffer_bound (es : List Event) (he : ∀ e ∈ es, frameFits e) :
    ∀ s : LoopState, s.buffer.length < windowSizeInSamples →
      (resultState (run s es)).buffer.length < windowSizeInSamples := by
  induction es with
  | nil => intro s hs; simpa [run, resultState] using hs
  | cons e es ih =>
      intro s hs
      have hstep := step_buffer_bound s e hs (he e (by simp))
      cases hst : step s e with
      | ok s' =>
          rw [hst] at hstep
          have : run s (e :: es) = run s' es := by simp [run, hst]
          rw [this]
          exact ih (fun e' he' => he e' (by simp [he'])) s' (by simpa [resultState] using hstep)
      | error s' =>
          rw [hst] at hstep
          have : run s (e :: es) = .error s' := by simp [run, hst]
          rw [this]
          simpa [resultState] using hstep

/-- C1: on a tick event (queue poll timed out), a commit occurs if and
only if the provisional text is non-empty (Provisional state) and the
elapsed time since `last_speech_time` exceeds `PAUSE_THRESHOLD`; the
tick never raises; and in Idle state (empty provisional text) the tick
changes nothing, regardless of elapsed time. -/
theorem tick_commit_iff_pause_exceeded (s : LoopState) (now : ℚ) :
    isOk (step s (.timeout now)) = true ∧
    (commitOccurred s (resultState (step s (.timeout now))) ↔
      s.provisional ≠ "" ∧ now - s.lastSpeech > PAUSE_THRESHOLD) ∧
    (s.provisional = "" → resultState (step s (.timeout now)) = s) := by
  by_cases hc : s.provisional ≠ "" ∧ now - s.lastSpeech > PAUSE_THRESHOLD
  · rw [step_timeout_commit s now hc.1 hc.2]
    refine ⟨rfl, ?_, fun hp => absurd hp hc.1⟩
    constructor
    · intro _; exact hc
    · intro _
      simp only [commitOccurred, resultState]
      intro he
      have hlen := congrArg String.length he
      rw [String.length_append, String.length_append] at hlen
      have hone : (" " : String).length = 1 := by decide
      omega
  · rw [step_timeout_noCommit s now hc]
    refine ⟨rfl, ?_, fun _ => rfl⟩
    simp only [commitOccurred, resultState]
    constructor
    · intro h; exact absurd rfl h
    · intro h; exact absurd h hc

theorem tick_commit_iff_pause_exceeded_witness :
    isOk (step ⟨[], "p", "c", 0⟩ (.timeout 1)) = true ∧
    (commitOccurred ⟨[], "p", "c", 0⟩ (resultState (step ⟨[], "p", "c", 0⟩ (.timeout 1))) ↔
      ("p" : String) ≠ "" ∧ (1 : ℚ) - 0 > PAUSE_THRESHOLD) ∧
    (("p" : String) = "" → resultState (step ⟨[], "p", "c", 0⟩ (.timeout 1)) = ⟨[], "p", "c", 0⟩) :=
  tick_commit_iff_pause_exceeded ⟨[], "p", "c", 0⟩ 1

/-- C4: for any sequence of appended frames with total sample count N
and any window size W > 0, repeated extraction yields exactly
floor(N/W) windows of exactly W samples each (so floor(N/W) * W samples
are removed), leaves exactly N mod W samples buffered, and preserves
the original order. -/
theorem window_extraction_exact (W : ℕ) (frames : List (List ℚ)) (hW : 0 < W) :
    (extractAll W frames.flatten).1.map List.length =
      List.replicate (frames.flatten.length / W) W ∧
    W * (frames.flatten.length / W) + (extractAll W frames.flatten).2.length =
      frames.flatten.length ∧
    (extractAll W frames.flatten).2.length = frames.flatten.length % W ∧
    (extractAll W frames.flatten).1.flatten ++ (extractAll W frames.flatten).2 =
      frames.flatten := by
  simp only [extractAll]
  obtain ⟨h1, h2, h3⟩ :=
    extractAllGo_counts W hW frames.flatten.length frames.flatten le_rfl
  refine ⟨?_, ?_, h3, extractAllGo_flatten_append _ _ _⟩
  · rw [List.eq_replicate_iff]
    refine ⟨by rw [List.length_map, h1], ?_⟩
    intro b hb
    simp only [List.mem_map] at hb
    obtain ⟨w, hw, rfl⟩ := hb
    exact h2 w hw
  · rw [h3]
    exact Nat.div_add_mod _ _

theorem window_extraction_exact_witness :
    (extractAll 2 [[1, 2, 3], [4, 5]].flatten).1.map List.length =
      List.replicate ([[1, 2, 3], [4, 5]].flatten.length / 2) 2 ∧
    2 * ([[1, 2, 3], [4, 5]].flatten.length / 2) +
      (extractAll 2 [[1, 2, 3], [4, 5]].flatten).2.length =
      [[1, 2, 3], [4, 5]].flatten.length ∧
    (extractAll 2 [[1, 2, 3], [4, 5]].flatten).2.length =
      [[1, 2, 3], [4, 5]].flatten.length % 2 ∧
    (extractAll 2 [[1, 2, 3], [4, 5]].flatten).1.flatten ++
      (extractAll 2 [[1, 2, 3], [4, 5]].flatten).2 = [[1, 2, 3], [4, 5]].flatten :=
  window_extraction_exact 2 [[1, 2, 3], [4, 5]] (by decide)

/-- C5: concatenating all extracted windows in extraction order,
followed by the final buffered remainder, reproduces the appended
sample sequence exactly, for every window size and every frame
sequence: no window is skipped, duplicated or reordered. -/
theorem extraction_reconstructs_input (W : ℕ) (frames : List (List ℚ)) :
    (extractAll W frames.flatten).1.flatten ++ (extractAll W frames.flatten).2 =
      frames.flatten :=
  extractAllGo_flatten_append frames.flatten.length W frames.flatten

theorem extraction_reconstructs_input_witness :
    (extractAll 3 [[1, 2], [3, 4, 5], [6]].flatten).1.flatten ++
      (extractAll 3 [[1, 2], [3, 4, 5], [6]].flatten).2 =
      [[1, 2], [3, 4, 5], [6]].flatten :=
  extraction_reconstructs_input 3 [[1, 2], [3, 4, 5], [6]]

/-- C9: the committed transcript is only ever appended to: across any
single iteration (frame or tick, exception or not) and across any whole
run, the prior committed text is a prefix of the later committed
text. -/
theorem committed_transcript_prefix_monotone (s : LoopState) (e : Event)
    (es : List Event) :
    (∃ t, (resultState (step s e)).committed = s.committed ++ t) ∧
    (∃ t, (resultState (run s es)).committed = s.committed ++ t) :=
  ⟨step_committed_extends s e, run_committed_extends es s⟩

theorem committed_transcript_prefix_monotone_witness :
    (∃ t, (resultState (step ⟨[], "p", "c", 0⟩ (.timeout 1))).committed =
      ("c" : String) ++ t) ∧
    (∃ t, (resultState (run ⟨[], "p", "c", 0⟩ [.timeout 1, .timeout 2])).committed =
      ("c" : String) ++ t) :=
  committed_transcript_prefix_monotone ⟨[], "p", "c", 0⟩ (.timeout 1)
    [.timeout 1, .timeout 2]

/-- C2 counterexample: a translation-adapter exception on window k does
not leave LastSpeechTimestamp at its prior value (0), is not surfaced
as a recoverable event, and the loop does not resume with window k+1:
the run aborts with `last_speech_time` already advanced to 5, the
second frame unprocessed. -/
theorem adapter_failure_not_isolated :
    run initState
      [.frame (List.replicate 16000 (0 : ℚ)) (.ok "hi") 5 (.error ()),
       .frame (List.replicate 16000 (0 : ℚ)) (.ok "more") 6 (.ok "T")] =
      .error ⟨[], "", "", 5⟩ ∧
    initState.lastSpeech ≠ 5 := by
  have hwin : windowSizeInSamples ≤
      (initState.buffer ++ List.replicate 16000 (0 : ℚ)).length := by
    show windowSizeInSamples ≤ (([] : List ℚ) ++ List.replicate 16000 (0 : ℚ)).length
    rw [List.nil_append, List.length_replicate]
    exact le_rfl
  have h := step_frame_trError initState (List.replicate 16000 0) "hi" 5 () hwin
    (by decide)
  have hbuf : (initState.buffer ++ List.replicate 16000 (0 : ℚ)).drop
      windowSizeInSamples = [] := by
    show (([] : List ℚ) ++ List.replicate 16000 (0 : ℚ)).drop windowSizeInSamples = []
    rw [List.nil_append, List.drop_replicate]
    rfl
  rw [hbuf] at h
  constructor
  · simp only [run, h]
    rfl
  · norm_num [initState]

/-- C2 amended: an adapter exception while processing window k leaves
the committed and provisional text exactly as they were before the
window; a recognition failure also leaves LastSpeechTimestamp
untouched, but a translation failure happens after LastSpeechTimestamp
was already advanced to the current time. The exception is not caught:
the run aborts and no later window is processed. -/
theorem adapter_failure_aborts_preserving_transcript (s : LoopState)
    (chunk : List ℚ) (raw : String) (now : ℚ) (tr : Except Unit String)
    (es : List Event)
    (hwin : windowSizeInSamples ≤ (s.buffer ++ chunk).length)
    (hraw : raw ≠ "") :
    run s (.frame chunk (.error ()) now tr :: es) =
      .error { s with buffer := (s.buffer ++ chunk).drop windowSizeInSamples } ∧
    run s (.frame chunk (.ok raw) now (.error ()) :: es) =
      .error { s with buffer := (s.buffer ++ chunk).drop windowSizeInSamples,
                      lastSpeech := now } := by
  constructor
  · have h := step_frame_asrError s chunk () now tr hwin
    simp only [run, h]
  · have h := step_frame_trError s chunk raw now () hwin hraw
    simp only [run, h]

theorem adapter_failure_aborts_preserving_transcript_witness :
    run ⟨[], "p", "c", 0⟩
      (.frame (List.replicate 16000 (0 : ℚ)) (.error ()) 5 (.ok "x") :: [.timeout 9]) =
      .error { (⟨[], "p", "c", 0⟩ : LoopState) with
        buffer := ((⟨[], "p", "c", 0⟩ : LoopState).buffer ++
          List.replicate 16000 (0 : ℚ)).drop windowSizeInSamples } ∧
    run ⟨[], "p", "c", 0⟩
      (.frame (List.replicate 16000 (0 : ℚ)) (.ok "hi") 5 (.error ()) :: [.timeout 9]) =
      .error { (⟨[], "p", "c", 0⟩ : LoopState) with
        buffer := ((⟨[], "p", "c", 0⟩ : LoopState).buffer ++
          List.replicate 16000 (0 : ℚ)).drop windowSizeInSamples,
        lastSpeech := 5 } :=
  adapter_failure_aborts_preserving_transcript ⟨[], "p", "c", 0⟩
    (List.replicate 16000 0) "hi" 5 (.ok "x") [.timeout 9]
    (by show windowSizeInSamples ≤ (([] : List ℚ) ++ List.replicate 16000 (0 : ℚ)).length
        rw [List.nil_append, List.length_replicate]
        exact le_rfl)
    (by decide)

/-- C3: while provisional text is pending, any number of silence frames
(frames whose recognition comes back empty) does not block the commit:
once a tick happens at a time exceeding `last_speech_time` plus the
pause threshold, the provisional text is committed with the separator
and cleared, even though audio frames kept arriving and being
processed in between. -/
theorem silence_frames_do_not_prevent_commit (s : LoopState) (es : List Event)
    (now : ℚ)
    (hes : ∀ e ∈ es, emptyRecognitionFrame e)
    (hp : s.provisional ≠ "")
    (ht : now - s.lastSpeech > PAUSE_THRESHOLD) :
    isOk (run s (es ++ [.timeout now])) = true ∧
    (resultState (run s (es ++ [.timeout now]))).committed =
      s.committed ++ " " ++ s.provisional ∧
    (resultState (run s (es ++ [.timeout now]))).provisional = "" := by
  obtain ⟨b, hb⟩ := run_emptyRec es hes s
  have hmid : run s (es ++ [.timeout now]) =
      run { s with buffer := b } [.timeout now] := by
    rw [run_append es [.timeout now] s, hb]
  have hcommit : step { s with buffer := b } (.timeout now) =
      .ok { s with buffer := b,
                   committed := s.committed ++ " " ++ s.provisional,
                   provisional := "" } :=
    step_timeout_commit { s with buffer := b } now hp ht
  rw [hmid]
  simp [run, hcommit, isOk, resultState]

theorem silence_frames_do_not_prevent_commit_witness :
    isOk (run ⟨[], "p", "c", 0⟩
      ([.frame [] (.ok "") 0 (.ok "")] ++ [.timeout 1])) = true ∧
    (resultState (run ⟨[], "p", "c", 0⟩
      ([.frame [] (.ok "") 0 (.ok "")] ++ [.timeout 1]))).committed =
      ("c" : String) ++ " " ++ "p" ∧
    (resultState (run ⟨[], "p", "c", 0⟩
      ([.frame [] (.ok "") 0 (.ok "")] ++ [.timeout 1]))).provisional = "" :=
  silence_frames_do_not_prevent_commit ⟨[], "p", "c", 0⟩
    [.frame [] (.ok "") 0 (.ok "")] 1 (by decide) (by decide)
    (by show (1 : ℚ) - 0 > PAUSE_THRESHOLD
        norm_num [PAUSE_THRESHOLD])

/-- C6: when a commit fires at a tick, the provisional text is cleared
and the committed transcript becomes the prior transcript plus the
separator plus the just-committed provisional text; a second tick with
no intervening window-ready event leaves the state untouched, so the
commit fires exactly once per provisional text. -/
theorem commit_clears_provisional_exactly_once (s : LoopState) (now now₂ : ℚ)
    (hp : s.provisional ≠ "") (ht : now - s.lastSpeech > PAUSE_THRESHOLD) :
    step s (.timeout now) =
      .ok { s with committed := s.committed ++ " " ++ s.provisional,
                   provisional := "" } ∧
    step { s with committed := s.committed ++ " " ++ s.provisional,
                  provisional := "" } (.timeout now₂) =
      .ok { s with committed := s.committed ++ " " ++ s.provisional,
                   provisional := "" } := by
  refine ⟨step_timeout_commit s now hp ht, ?_⟩
  apply step_timeout_noCommit
  simp

theorem commit_clears_provisional_exactly_once_witness :
    step ⟨[], "p", "c", 0⟩ (.timeout 1) =
      .ok { (⟨[], "p", "c", 0⟩ : LoopState) with
            committed := ("c" : String) ++ " " ++ "p", provisional := "" } ∧
    step { (⟨[], "p", "c", 0⟩ : LoopState) with
           committed := ("c" : String) ++ " " ++ "p", provisional := "" }
        (.timeout 50) =
      .ok { (⟨[], "p", "c", 0⟩ : LoopState) with
            committed := ("c" : String) ++ " " ++ "p", provisional := "" } :=
  commit_clears_provisional_exactly_once ⟨[], "p", "c", 0⟩ 1 50
    (by decide)
    (by show (1 : ℚ) - 0 > PAUSE_THRESHOLD
        norm_num [PAUSE_THRESHOLD])

/-- C7: a window whose recognition result is the empty string leaves
`last_speech_time` and the provisional text unchanged, raises nothing,
and its outcome does not depend on the translation response at all
(translation is never reached); only the audio buffer advances. -/
theorem empty_recognition_keeps_state (s : LoopState) (chunk : List ℚ)
    (now : ℚ) (tr : Except Unit String)
    (hwin : windowSizeInSamples ≤ (s.buffer ++ chunk).length) :
    step s (.frame chunk (.ok "") now tr) =
      .ok { s with buffer := (s.buffer ++ chunk).drop windowSizeInSamples } ∧
    (resultState (step s (.frame chunk (.ok "") now tr))).lastSpeech =
      s.lastSpeech ∧
    (resultState (step s (.frame chunk (.ok "") now tr))).provisional =
      s.provisional := by
  have h := step_frame_asrEmpty s chunk now tr hwin
  exact ⟨h, by rw [h]; rfl, by rw [h]; rfl⟩

theorem empty_recognition_keeps_state_witness :
    step ⟨[], "p", "c", 7⟩
        (.frame (List.replicate 16000 (0 : ℚ)) (.ok "") 9 (.ok "x")) =
      .ok { (⟨[], "p", "c", 7⟩ : LoopState) with
        buffer := ((⟨[], "p", "c", 7⟩ : LoopState).buffer ++
          List.replicate 16000 (0 : ℚ)).drop windowSizeInSamples } ∧
    (resultState (step ⟨[], "p", "c", 7⟩
        (.frame (List.replicate 16000 (0 : ℚ)) (.ok "") 9 (.ok "x")))).lastSpeech =
      (7 : ℚ) ∧
    (resultState (step ⟨[], "p", "c", 7⟩
        (.frame (List.replicate 16000 (0 : ℚ)) (.ok "") 9 (.ok "x")))).provisional =
      ("p" : String) :=
  empty_recognition_keeps_state ⟨[], "p", "c", 7⟩ (List.replicate 16000 0) 9
    (.ok "x")
    (by show windowSizeInSamples ≤ (([] : List ℚ) ++ List.replicate 16000 (0 : ℚ)).length
        rw [List.nil_append, List.length_replicate]
        exact le_rfl)

/-- C8 counterexample: a single appended frame of two windows worth of
samples (32000) makes the slice condition hold, yet after the one slice
the code performs, the buffer still holds a full window (16000 samples),
so the buffer is not strictly below `windowSizeInSamples` immediately
after a window is sliced off. -/
theorem slice_can_leave_full_window_buffered :
    windowSizeInSamples ≤ (initState.buffer ++ List.replicate 32000 (0 : ℚ)).length ∧
    ¬ (resultState (step initState
        (.frame (List.replicate 32000 (0 : ℚ)) (.ok "") 0 (.ok "")))).buffer.length
      < windowSizeInSamples := by
  have hwin : windowSizeInSamples ≤
      (initState.buffer ++ List.replicate 32000 (0 : ℚ)).length := by
    show windowSizeInSamples ≤ (([] : List ℚ) ++ List.replicate 32000 (0 : ℚ)).length
    rw [List.nil_append, List.length_replicate]
    norm_num [windowSizeInSamples]
  refine ⟨hwin, ?_⟩
  rw [step_frame_asrEmpty initState (List.replicate 32000 0) 0 (.ok "") hwin]
  simp only [resultState, initState]
  rw [List.nil_append, List.drop_replicate, List.length_replicate]
  norm_num [windowSizeInSamples]

/-- C8 amended: provided every arriving frame carries at most one
window of samples, the buffer of the running loop always holds strictly
fewer than `windowSizeInSamples` samples after each iteration — in
particular immediately after a window is sliced off. Without that bound
on frame size the invariant fails (see the counterexample). -/
theorem buffer_invariant_for_fitting_frames (es : List Event)
    (hes : ∀ e ∈ es, frameFits e) :
    (resultState (run initState es)).buffer.length < windowSizeInSamples :=
  run_buffer_bound es hes initState (by decide)

theorem buffer_invariant_for_fitting_frames_witness :
    (resultState (run initState
      [.frame [1] (.ok "") 0 (.ok ""), .timeout 3])).buffer.length <
      windowSizeInSamples :=
  buffer_invariant_for_fitting_frames
    [.frame [1] (.ok "") 0 (.ok ""), .timeout 3] (by decide)

/-- C10: the Provisional/Idle distinction is carried solely by the
non-emptiness of the provisional string: if the translation adapter
returns the empty string for a non-empty recognition result, the
window-ready event sets the provisional text to empty while advancing
`last_speech_time`, and from that state a tick at any later time
commits nothing — the content of that window can never reach the
transcript. -/
theorem empty_translation_window_never_committed (s : LoopState)
    (chunk : List ℚ) (raw : String) (now now₂ : ℚ)
    (hwin : windowSizeInSamples ≤ (s.buffer ++ chunk).length)
    (hraw : raw ≠ "") :
    step s (.frame chunk (.ok raw) now (.ok "")) =
      .ok { s with buffer := (s.buffer ++ chunk).drop windowSizeInSamples,
                   lastSpeech := now, provisional := "" } ∧
    step { s with buffer := (s.buffer ++ chunk).drop windowSizeInSamples,
                  lastSpeech := now, provisional := "" } (.timeout now₂) =
      .ok { s with buffer := (s.buffer ++ chunk).drop windowSizeInSamples,
                   lastSpeech := now, provisional := "" } := by
  refine ⟨step_frame_success s chunk raw now "" hwin hraw, ?_⟩
  apply step_timeout_noCommit
  simp

theorem empty_translation_window_never_committed_witness :
    step ⟨[], "p", "c", 0⟩
        (.frame (List.replicate 16000 (0 : ℚ)) (.ok "hi") 5 (.ok "")) =
      .ok { (⟨[], "p", "c", 0⟩ : LoopState) with
        buffer := ((⟨[], "p", "c", 0⟩ : LoopState).buffer ++
          List.replicate 16000 (0 : ℚ)).drop windowSizeInSamples,
        lastSpeech := 5, provisional := "" } ∧
    step { (⟨[], "p", "c", 0⟩ : LoopState) with
        buffer := ((⟨[], "p", "c", 0⟩ : LoopState).buffer ++
          List.replicate 16000 (0 : ℚ)).drop windowSizeInSamples,
        lastSpeech := 5, provisional := "" } (.timeout 99) =
      .ok { (⟨[], "p", "c", 0⟩ : LoopState) with
        buffer := ((⟨[], "p", "c", 0⟩ : LoopState).buffer ++
          List.replicate 16000 (0 : ℚ)).drop windowSizeInSamples,
        lastSpeech := 5, provisional := "" } :=
  empty_translation_window_never_committed ⟨[], "p", "c", 0⟩
    (List.replicate 16000 0) "hi" 5 99
    (by show windowSizeInSamples ≤ (([] : List ℚ) ++ List.replicate 16000 (0 : ℚ)).length
        rw [List.nil_append, List.length_replicate]
        exact le_rfl)
    (by decide)
